import Mathlib

/-!
Verification of the batch text-search and string-replace core of the
Yolo-Mode-MCP tool server (src/src/tools/cli.ts).

Strings are modelled as `List Char` (JS strings are sequences of code
units; every input in this development is ASCII so the identification is
exact).  The filesystem collaborator is modelled as a partial map from
path strings to file contents plus a per-path write-permission flag;
`readFileSync` succeeds exactly on present paths, `writeFileSync`
succeeds exactly on write-permitted paths (a failing write throws in the
source and is caught, leaving the file unchanged).  Handlers that touch
the filesystem return, besides their outcome, the updated filesystem and
a trace of the filesystem effects actually performed (reads of file
contents and completed writes); `fs.existsSync` probes no file content
and is therefore not traced.

Loops of the source are embedded as structural recursions; where the
loop variable does not decrease structurally an explicit fuel argument
bounds the iteration count, instantiated at each call site with a bound
(derived from the input sizes) that the loop can never exhaust.
-/

/-- Boolean prefix test on character lists: `isPre p s` is true iff `p`
is an initial segment of `s`. -/
def isPre : List Char → List Char → Bool
  | [], _ => true
  | _ :: _, [] => false
  | a :: p, b :: s => a = b && isPre p s

/-- Boolean substring test: `containsSub p s` is true iff `p` occurs
contiguously inside `s`.  This is the semantics of testing the
regex-escaped literal pattern against a line in the source (lines
579-580 escape all metacharacters, so `regex.test(line)` is exactly
substring containment). -/
def containsSub (p : List Char) : List Char → Bool
  | [] => isPre p []
  | s@(_ :: t) => isPre p s || containsSub p t

/-- JS `String.prototype.toLowerCase` restricted to ASCII, applied
characterwise. -/
def lowerL (s : List Char) : List Char := s.map Char.toLower

/-! ## Edit-Distance Engine (source lines 1034-1066)

The source fills the classic dynamic-programming table
`dp[i][j] = distance between the first i chars of s1 and the first j
chars of s2` with `dp[i][0] = i`, `dp[0][j] = j`, and
`dp[i][j] = min(dp[i-1][j]+1, dp[i][j-1]+1, dp[i-1][j-1]+cost)` where
`cost` is 0 when `s1[i-1] === s2[j-1]` and 1 otherwise.  We embed that
recurrence directly, peeling characters from the front (edit distance
is invariant under simultaneously reversing both strings, and the
recurrence below is the same three-way deletion/insertion/substitution
minimum with unit costs).  A fuel argument makes the recursion
structural; fuel `|s1| + |s2|` can never run out, since every recursive
call removes at least one character overall. -/

/-- One step of the Levenshtein recurrence with explicit fuel. -/
def levFuel : Nat → List Char → List Char → Nat
  | _, [], s2 => s2.length
  | _, s1@(_ :: _), [] => s1.length
  | 0, _ :: _, _ :: _ => 0
  | fuel + 1, a :: s1, b :: s2 =>
    min (min (levFuel fuel s1 (b :: s2) + 1) (levFuel fuel (a :: s1) s2 + 1))
      (levFuel fuel s1 s2 + (if a = b then 0 else 1))

/-- `levenshteinDistance` of the source (lines 1034-1058). -/
def levenshteinDistance (s1 s2 : List Char) : Nat :=
  levFuel (s1.length + s2.length) s1 s2

/-- `similarityRatio` of the source (lines 1061-1066): `1` when both
strings are empty, otherwise `1 - distance / max(len, len)`. -/
def similarityRatio (s1 s2 : List Char) : ℚ :=
  let maxLen := max s1.length s2.length
  if maxLen = 0 then 1
  else 1 - (levenshteinDistance s1 s2 : ℚ) / (maxLen : ℚ)

/-! ## JS string primitives used by the Substitution Engine

`content.split(sep)` for a non-empty separator cuts the string at the
leftmost-first non-overlapping occurrences of `sep`; for the empty
separator it splits into single characters.  `arr.join(sep)`
interleaves `sep` between chunks.  `content.replace(sep, repl)` with
string arguments replaces the first occurrence only (the source never
passes a replacement containing JS dollar patterns in the claims under
study; dollar-pattern substitution is not modelled).  All loops are
structural with fuel `|s|`, which cannot be exhausted because every
step consumes at least one character. -/

/-- Worker for `split` with a non-empty separator.  On fuel exhaustion
(unreachable for fuel ≥ length of the remaining string) the remaining
string is returned as the final chunk. -/
def splitGo (sep : List Char) : Nat → List Char → List (List Char)
  | _, [] => [[]]
  | 0, s => [s]
  | fuel + 1, s@(c :: t) =>
    if isPre sep s then
      [] :: splitGo sep fuel (s.drop sep.length)
    else
      match splitGo sep fuel t with
      | [] => [[c]]
      | h :: rest => (c :: h) :: rest

/-- JS `String.prototype.split` with a string separator. -/
def jsSplit (sep s : List Char) : List (List Char) :=
  if sep = [] then s.map (fun c => [c]) else splitGo sep s.length s

/-- JS `Array.prototype.join` with a string separator. -/
def joinWith (sep : List Char) : List (List Char) → List Char
  | [] => []
  | x :: xs =>
    match xs with
    | [] => x
    | _ :: _ => x ++ sep ++ joinWith sep xs

/-- Greedy left-to-right count of non-overlapping occurrences of `sep`
(the spec's notion of "occurrence"; §2 and glossary).  Same fuel
discipline as `splitGo`. -/
def countOccGo (sep : List Char) : Nat → List Char → Nat
  | _, [] => 0
  | 0, _ => 0
  | fuel + 1, s@(_ :: t) =>
    if isPre sep s then
      1 + countOccGo sep fuel (s.drop sep.length)
    else
      countOccGo sep fuel t

/-- Number of non-overlapping occurrences of `sep` in `s`, counted
greedily left to right. -/
def countOcc (sep s : List Char) : Nat := countOccGo sep s.length s

/-- Greedy left-to-right replacement of every non-overlapping occurrence
of `sep` by `repl` (the spec's notion of "replace all occurrences"). -/
def replaceAllGo (sep repl : List Char) : Nat → List Char → List Char
  | _, [] => []
  | 0, s => s
  | fuel + 1, s@(c :: t) =>
    if isPre sep s then
      repl ++ replaceAllGo sep repl fuel (s.drop sep.length)
    else
      c :: replaceAllGo sep repl fuel t

/-- Replacement of every greedily-counted occurrence of `sep` in `s`. -/
def replaceAllOcc (sep repl s : List Char) : List Char :=
  replaceAllGo sep repl s.length s

/-- JS `String.prototype.replace` with string arguments: replace the
first occurrence of `sep`, or return `s` unchanged when `sep` does not
occur.  Fuel discipline as above. -/
def replaceFirstGo (sep repl : List Char) : Nat → List Char → List Char
  | _, [] => []
  | 0, s => s
  | fuel + 1, s@(c :: t) =>
    if isPre sep s then
      repl ++ s.drop sep.length
    else
      c :: replaceFirstGo sep repl fuel t

/-- JS `content.replace(sep, repl)` for string `sep`. -/
def replaceFirst (sep repl s : List Char) : List Char :=
  replaceFirstGo sep repl s.length s

/-! ## Filesystem collaborator model

`files` maps a path to the content of the file stored there (`none` for
a missing path); `writeOk` tells whether a write to the path succeeds
(`writeFileSync` throwing is modelled as `fsWrite` returning `none`, in
which case no file changes).  `fs.existsSync p` is `(files p).isSome`,
`fs.readFileSync p` is `files p`. -/

/-- Stable insertion of `x` into `l`: `x` goes right before the first
element `y` with `le x y`. -/
def insertBy {α : Type} (le : α → α → Bool) (x : α) : List α → List α
  | [] => [x]
  | y :: ys => if le x y then x :: y :: ys else y :: insertBy le x ys

/-- JS `Array.prototype.sort(cmp)` with a comparator `(a, b) => k(a) -
k(b)`: a stable ascending sort, embedded as stable insertion sort
(straight-line structural recursion, unlike the library mergeSort). -/
def jsSortBy {α : Type} (le : α → α → Bool) : List α → List α
  | [] => []
  | x :: xs => insertBy le x (jsSortBy le xs)

structure FS where
  files : String → Option (List Char)
  writeOk : String → Bool

/-- `fs.writeFileSync`: `some` of the updated filesystem on success,
`none` when the write throws (nothing changes then). -/
def fsWrite (fs : FS) (p : String) (c : List Char) : Option FS :=
  if fs.writeOk p then
    some ⟨fun q => if q = p then some c else fs.files q, fs.writeOk⟩
  else none

/-- A filesystem effect actually performed by a handler: a completed
read of a file's content, or a completed write. -/
inductive FSEffect
  | readF (p : String) (c : List Char)
  | writeF (p : String) (c : List Char)
deriving DecidableEq

/-- The writes among a trace of effects. -/
def writesOf (tr : List FSEffect) : List FSEffect :=
  tr.filter (fun e => match e with | .writeF _ _ => true | _ => false)

/-! ## Substitution Engine: `str_replace` (source lines 699-761)

Error constructors stand for the source's error messages:
`missingOldText` ↔ "oldText parameter is required", `fileNotFound` ↔
"File not found: …", `stringNotFound` ↔ "String not found in file: …",
`notUnique n` ↔ "String appears n times in file. The string to replace
must be unique. …", `writeFailed` ↔ the caught I/O exception message. -/

inductive ReplaceErr
  | missingOldText
  | fileNotFound
  | stringNotFound
  | notUnique (occurrences : Nat)
  | writeFailed
deriving DecidableEq

/-- Arguments of `str_replace`; the source accepts both the
`oldText`/`newText` and the legacy `old_str`/`new_str` spellings. -/
structure StrReplaceArgs where
  path : String
  oldText : Option (List Char) := none
  newText : Option (List Char) := none
  old_str : Option (List Char) := none
  new_str : Option (List Char) := none

/-- Result of `str_replace`: `err = none` is the success response. -/
structure StrReplaceOut where
  err : Option ReplaceErr
  fs : FS
  trace : List FSEffect

/-- `handleStrReplace` (source lines 699-761).  `a ?? b` of JS is
`a <|> b` on `Option` (an empty string does NOT fall through `??`);
`!oldStr` is true for both an absent and an empty string. -/
def handleStrReplace (args : StrReplaceArgs) (fs : FS) : StrReplaceOut :=
  let newStr := (args.newText <|> args.new_str).getD []
  match args.oldText <|> args.old_str with
  | none => ⟨some .missingOldText, fs, []⟩
  | some oldStr =>
    if oldStr = [] then ⟨some .missingOldText, fs, []⟩
    else
      match fs.files args.path with
      | none => ⟨some .fileNotFound, fs, []⟩
      | some content =>
        let occurrences := (jsSplit oldStr content).length - 1
        if occurrences = 0 then
          ⟨some .stringNotFound, fs, [.readF args.path content]⟩
        else if 1 < occurrences then
          ⟨some (.notUnique occurrences), fs, [.readF args.path content]⟩
        else
          let newContent := replaceFirst oldStr newStr content
          match fsWrite fs args.path newContent with
          | some fs' =>
            ⟨none, fs', [.readF args.path content, .writeF args.path newContent]⟩
          | none => ⟨some .writeFailed, fs, [.readF args.path content]⟩

/-! ## Batch Substitution: `batch_str_replace` (source lines 923-1031) -/

/-- One item of a `batch_str_replace` request. -/
structure ReplaceItem where
  path : String
  oldText : List Char
  newText : Option (List Char) := none
  replaceAll : Option Bool := none

/-- The success payload of one batch replacement item (source lines
991-996). -/
structure ReplaceInfo where
  path : String
  replacements : Nat
  oldTextLength : Nat
  newTextLength : Nat
deriving DecidableEq

/-- One entry of a batch `results` array (source lines 764-769). -/
structure BatchResult where
  index : Nat
  success : Bool
  result : Option ReplaceInfo := none
  error : Option ReplaceErr := none
deriving DecidableEq

/-- The body of the `batch_str_replace` loop for one item (source lines
936-1003), at original position `index`. -/
def batchStrReplaceStep (fs : FS) (index : Nat) (op : ReplaceItem) :
    BatchResult × FS × List FSEffect :=
  let newStr := op.newText.getD []
  let replaceAll := op.replaceAll.getD false
  match fs.files op.path with
  | none => (⟨index, false, none, some .fileNotFound⟩, fs, [])
  | some content =>
    let occurrences := (jsSplit op.oldText content).length - 1
    if occurrences = 0 then
      (⟨index, false, none, some .stringNotFound⟩, fs, [.readF op.path content])
    else if replaceAll = false ∧ 1 < occurrences then
      (⟨index, false, none, some (.notUnique occurrences)⟩, fs,
        [.readF op.path content])
    else
      let newContent :=
        if replaceAll then joinWith newStr (jsSplit op.oldText content)
        else replaceFirst op.oldText newStr content
      match fsWrite fs op.path newContent with
      | some fs' =>
        (⟨index, true,
          some ⟨op.path, if replaceAll then occurrences else 1,
            op.oldText.length, newStr.length⟩, none⟩, fs',
          [.readF op.path content, .writeF op.path newContent])
      | none => (⟨index, false, none, some .writeFailed⟩, fs,
          [.readF op.path content])

/-- The sequential `batch_str_replace` loop: items run in request order,
each on the filesystem left by its predecessors; with `stop` set the
loop breaks right after pushing the first failing result. -/
def batchStrReplaceGo (stop : Bool) : FS → Nat → List ReplaceItem →
    List BatchResult × FS
  | fs, _, [] => ([], fs)
  | fs, i, op :: rest =>
    let (r, fs', _) := batchStrReplaceStep fs i op
    if r.success = false ∧ stop = true then ([r], fs')
    else
      let (rs, fs'') := batchStrReplaceGo stop fs' (i + 1) rest
      (r :: rs, fs'')

/-- Aggregate response of `batch_str_replace` (source lines 1006-1030).
`elapsed_ms` (wall-clock time) is not modelled. -/
structure BatchStrReplaceOut where
  total : Nat
  successful : Nat
  failed : Nat
  totalReplacements : Nat
  results : List BatchResult
  isError : Bool
  fs : FS

/-- JS `results.sort((a, b) => a.index - b.index)`: a stable ascending
sort on `index`. -/
def sortByIndex (l : List BatchResult) : List BatchResult :=
  jsSortBy (fun a b => Nat.ble a.index b.index) l

/-- `handleBatchStrReplace` (source lines 923-1031). -/
def handleBatchStrReplace (fs : FS) (replacements : List ReplaceItem)
    (stopOnError : Option Bool) : BatchStrReplaceOut :=
  let stop := stopOnError.getD false
  let (results, fs') := batchStrReplaceGo stop fs 0 replacements
  let successful := (results.filter (fun r => r.success)).length
  let failed := (results.filter (fun r => r.success = false)).length
  let totalReplacements :=
    (results.filterMap (fun r =>
      if r.success then r.result.map (fun info => info.replacements)
      else none)).foldl (· + ·) 0
  ⟨replacements.length, successful, failed, totalReplacements,
    sortByIndex results, decide (0 < failed ∧ successful = 0), fs'⟩

/-! ## Line Scanner: `search_in_file` (source lines 555-655)

Only the literal (non-regex) mode is embedded: for a literal pattern the
source escapes every regex metacharacter (line 579), so `regex.test`
on a line is exactly substring containment, case-folded when
case-insensitive mode is requested (the `i` flag).  The `context`
attachment (lines 610-625) adds neighbouring lines to each match record
without affecting which lines match, their order, the counts or the
truncation flag; it is omitted from the match records here.  A match
record is the pair (1-based line number, line text). -/

/-- Whether a line matches the compiled literal pattern (source line
603, `regex.test(lines[i])` with `lastIndex` reset each iteration). -/
def litPred (pattern : List Char) (caseSensitive : Bool)
    (line : List Char) : Bool :=
  if caseSensitive then containsSub pattern line
  else containsSub (lowerL pattern) (lowerL line)

/-- The scanning loop (source lines 602-631): walk the lines from index
`i` with `found` matches already collected, stopping when the lines run
out or `found` reaches `maxM`.  Returns the collected (lineNumber, line)
records and the number of loop-body executions (lines examined). -/
def scanGo (pred : List Char → Bool) (maxM : Nat) :
    List (List Char) → Nat → Nat → List (Nat × List Char) × Nat
  | [], _, _ => ([], 0)
  | l :: rest, i, found =>
    if maxM ≤ found then ([], 0)
    else
      let found' := if pred l then found + 1 else found
      let (ms, ex) := scanGo pred maxM rest (i + 1) found'
      ((if pred l then [(i + 1, l)] else []) ++ ms, ex + 1)

/-- Why a search fails: the file read threw (missing / unreadable
path).  Invalid-regex failures cannot arise in the literal mode
embedded here. -/
inductive SearchErr
  | fileReadError
deriving DecidableEq

/-- Arguments of `search_in_file` (literal mode; `isRegex` and
`contextLines` are not modelled, see the section comment). -/
structure SearchArgs where
  path : String
  pattern : List Char
  caseSensitive : Option Bool := none
  maxMatches : Option Nat := none

/-- Response of `search_in_file` (source lines 635-654).  `matchList`
is the source's `matches` field (a reserved word in Lean). -/
structure SearchOutcome where
  path : String
  pattern : List Char
  success : Bool
  totalLines : Option Nat := none
  matchCount : Option Nat := none
  truncated : Option Bool := none
  matchList : Option (List (Nat × List Char)) := none
  error : Option SearchErr := none
deriving DecidableEq

/-- `handleSearchInFile` (source lines 555-655), literal mode.
Defaults: `caseSensitive` true (`args.caseSensitive !== false`),
`maxMatches` 100.  `truncated` is `matches.length >= maxMatches`
(source line 643). -/
def handleSearchInFile (fs : FS) (args : SearchArgs) : SearchOutcome :=
  match fs.files args.path with
  | none =>
    { path := args.path, pattern := args.pattern, success := false,
      error := some .fileReadError }
  | some content =>
    let caseSensitive := args.caseSensitive.getD true
    let maxM := args.maxMatches.getD 100
    let lines := jsSplit ['\n'] content
    let ms := (scanGo (litPred args.pattern caseSensitive) maxM lines 0 0).1
    { path := args.path, pattern := args.pattern, success := true,
      totalLines := some lines.length, matchCount := some ms.length,
      truncated := some (decide (maxM ≤ ms.length)), matchList := some ms }

/-- Model instrumentation (not a source field): how many loop-body
executions the scan of `handleSearchInFile` performs, i.e. how many
lines it examines before stopping. -/
def searchExamined (fs : FS) (args : SearchArgs) : Nat :=
  match fs.files args.path with
  | none => 0
  | some content =>
    let caseSensitive := args.caseSensitive.getD true
    let maxM := args.maxMatches.getD 100
    let lines := jsSplit ['\n'] content
    (scanGo (litPred args.pattern caseSensitive) maxM lines 0 0).2

/-! ## Fuzzy Window Matcher: `findFuzzyMatches` (source lines 1069-1120)

Similarities are exact rationals; every comparison performed by the
source on JS doubles in the claims under study is far from the floating
point rounding error of the values involved. -/

/-- A fuzzy window match; `stop` is the source's `end` field (a Lean
keyword). -/
structure FuzzyMatch where
  start : Nat
  stop : Nat
  matched : List Char
  similarity : ℚ
deriving DecidableEq

/-- First pass (source lines 1076-1090): windows of exactly the pattern
length; after a hit the index skips ahead by `floor(patternLen / 2)`
extra positions.  Fuel bounds the loop; `searchLine.length + 1` can
never be exhausted since `i` grows by at least one per iteration. -/
def fuzzyPass1 (searchLine line searchPattern : List Char)
    (patternLen : Nat) (threshold : ℚ) : Nat → Nat → List FuzzyMatch
  | 0, _ => []
  | fuel + 1, i =>
    if i + patternLen ≤ searchLine.length then
      let window := (searchLine.drop i).take patternLen
      let similarity := similarityRatio window searchPattern
      if threshold ≤ similarity then
        ⟨i, i + patternLen, (line.drop i).take patternLen, similarity⟩ ::
          fuzzyPass1 searchLine line searchPattern patternLen threshold
            fuel (i + patternLen / 2 + 1)
      else
        fuzzyPass1 searchLine line searchPattern patternLen threshold
          fuel (i + 1)
    else []

/-- Second pass, one window length (source lines 1097-1116): accept a
window above the threshold unless its span overlaps an already accepted
match; accepted matches are appended and participate in later overlap
checks. -/
def fuzzyPass2Inner (searchLine line searchPattern : List Char)
    (wl : Nat) (threshold : ℚ) :
    Nat → Nat → List FuzzyMatch → List FuzzyMatch
  | 0, _, acc => acc
  | fuel + 1, i, acc =>
    if i + wl ≤ searchLine.length then
      let window := (searchLine.drop i).take wl
      let similarity := similarityRatio window searchPattern
      if threshold ≤ similarity then
        let hasOverlap := acc.any (fun m =>
          (decide (m.start ≤ i) && decide (i < m.stop)) ||
            (decide (m.start < i + wl) && decide (i + wl ≤ m.stop)))
        if hasOverlap then
          fuzzyPass2Inner searchLine line searchPattern wl threshold
            fuel (i + 1) acc
        else
          fuzzyPass2Inner searchLine line searchPattern wl threshold
            fuel (i + 1)
            (acc ++ [⟨i, i + wl, (line.drop i).take wl, similarity⟩])
      else
        fuzzyPass2Inner searchLine line searchPattern wl threshold
          fuel (i + 1) acc
    else acc

/-- `findFuzzyMatches` (source lines 1069-1120): first pass at the
pattern length, then window lengths `patternLen + d` for
`d ∈ [-2, -1, 1, 2]` (skipped below length 2), finally a stable
ascending sort by start offset (`matches.sort((a, b) => a.start -
b.start)`). -/
def findFuzzyMatches (line pattern : List Char) (threshold : ℚ)
    (caseSensitive : Bool) : List FuzzyMatch :=
  let searchLine := if caseSensitive then line else lowerL line
  let searchPattern := if caseSensitive then pattern else lowerL pattern
  let patternLen := pattern.length
  let first := fuzzyPass1 searchLine line searchPattern patternLen
    threshold (searchLine.length + 1) 0
  let second := [(-2 : Int), -1, 1, 2].foldl (fun acc d =>
    let wlI : Int := (patternLen : Int) + d
    if wlI < 2 then acc
    else
      fuzzyPass2Inner searchLine line searchPattern wlI.toNat threshold
        (searchLine.length + 1) 0 acc) first
  jsSortBy (fun a b => Nat.ble a.start b.start) second

/-! ## Batch Orchestrator: `batch_search_in_files` (source lines
1123-1294), `batch_write_files` (850-884), `batch_read_files` (818-848)

`Promise.all(xs.map(async item => body))` with a fully synchronous body
runs the bodies sequentially in array order and returns their results
positioned by array index regardless of completion order; the embedding
is the corresponding `List.map` / index-threaded fold. -/

/-- One item of a `batch_search_in_files` request. -/
structure SearchItem where
  path : String
  pattern : List Char

/-- The batch-level search options (applied to every item).  `isRegex`
and `contextLines` are not modelled, as for `search_in_file`. -/
structure SearchOpts where
  isFuzzy : Option Bool := none
  fuzzyThreshold : Option ℚ := none
  caseSensitive : Option Bool := none
  maxMatchesPerFile : Option Nat := none

/-- One match record of a batch search (source lines 1147-1156):
`similarity` and `matchedText` populated in fuzzy mode only. -/
structure FuzzySearchMatch where
  lineNumber : Nat
  line : List Char
  similarity : Option ℚ := none
  matchedText : Option (List Char) := none
deriving DecidableEq

/-- Per-file result of a batch search (source lines 1140-1157).  Note:
it has no `index` field.  `matchList` is the source's `matches`
field. -/
structure FileSearchResult where
  path : String
  pattern : List Char
  success : Bool
  error : Option SearchErr := none
  totalLines : Option Nat := none
  matchCount : Option Nat := none
  matchList : Option (List FuzzySearchMatch) := none
deriving DecidableEq

/-- The JSON keys `JSON.stringify` emits for a `FileSearchResult`: the
source builds the failure object with exactly `path, pattern, success,
error` (lines 1210-1215, 1254-1261) and the success object with exactly
`path, pattern, success, totalLines, matchCount, matches` (lines
1245-1252). -/
def fileSearchResultKeys (r : FileSearchResult) : List String :=
  if r.success then
    ["path", "pattern", "success", "totalLines", "matchCount", "matches"]
  else ["path", "pattern", "success", "error"]

/-- JS `Math.round(x * 100) / 100` on a non-negative rational (source
line 1178). -/
def round2 (q : ℚ) : ℚ := ((⌊q * 100 + 1 / 2⌋ : ℤ) : ℚ) / 100

/-- The fuzzy-mode scanning loop of a batch search item (source lines
1169-1198): per line, all fuzzy window matches, truncated mid-line when
the per-file cap is reached. -/
def fuzzyScanGo (pattern : List Char) (threshold : ℚ)
    (caseSensitive : Bool) (maxM : Nat) :
    List (List Char) → Nat → Nat → List FuzzySearchMatch
  | [], _, _ => []
  | l :: rest, i, count =>
    if maxM ≤ count then []
    else
      let fms := (findFuzzyMatches l pattern threshold caseSensitive).take
        (maxM - count)
      fms.map (fun fm =>
        { lineNumber := i + 1, line := l,
          similarity := some (round2 fm.similarity),
          matchedText := some fm.matched })
        ++ fuzzyScanGo pattern threshold caseSensitive maxM rest (i + 1)
          (count + fms.length)

/-- One item of `batch_search_in_files` (source lines 1160-1262). -/
def searchOneFile (fs : FS) (opts : SearchOpts) (item : SearchItem) :
    FileSearchResult :=
  match fs.files item.path with
  | none =>
    { path := item.path, pattern := item.pattern, success := false,
      error := some .fileReadError }
  | some content =>
    let isFuzzy := opts.isFuzzy.getD false
    let threshold := opts.fuzzyThreshold.getD (7 / 10)
    let caseSensitive := opts.caseSensitive.getD true
    let maxM := opts.maxMatchesPerFile.getD 50
    let lines := jsSplit ['\n'] content
    let ms :=
      if isFuzzy then fuzzyScanGo item.pattern threshold caseSensitive
        maxM lines 0 0
      else
        ((scanGo (litPred item.pattern caseSensitive) maxM lines 0 0).1).map
          (fun m => { lineNumber := m.1, line := m.2 })
    { path := item.path, pattern := item.pattern, success := true,
      totalLines := some lines.length, matchCount := some ms.length,
      matchList := some ms }

/-- Aggregate response of `batch_search_in_files` (source lines
1265-1293).  The source returns `results` as produced by `Promise.all`,
without any sort and without attaching indices. -/
structure BatchSearchOut where
  total : Nat
  successful : Nat
  failed : Nat
  totalMatches : Nat
  results : List FileSearchResult
  isError : Bool

/-- `handleBatchSearchInFiles` (source lines 1123-1294). -/
def handleBatchSearchInFiles (fs : FS) (searches : List SearchItem)
    (opts : SearchOpts) : BatchSearchOut :=
  let results := searches.map (searchOneFile fs opts)
  let successful := (results.filter (fun r => r.success)).length
  let failed := (results.filter (fun r => r.success = false)).length
  let totalMatches :=
    (results.map (fun r => r.matchCount.getD 0)).foldl (· + ·) 0
  ⟨searches.length, successful, failed, totalMatches, results,
    decide (0 < failed ∧ successful = 0)⟩

/-- One item of a `batch_write_files` request. -/
structure WriteFileItem where
  path : String
  content : List Char

/-- One entry of the `batch_write_files` results (payload beyond index
and success omitted: `{path, written: true}` on success, the error
message on failure). -/
structure WriteBatchResult where
  index : Nat
  success : Bool
deriving DecidableEq

/-- The `batch_write_files` item bodies (source lines 853-866),
executed in array order on the shared filesystem; a throwing write
leaves the filesystem unchanged and yields a failed entry. -/
def batchWriteGo : FS → Nat → List WriteFileItem →
    List WriteBatchResult × FS
  | fs, _, [] => ([], fs)
  | fs, i, f :: rest =>
    match fsWrite fs f.path f.content with
    | some fs' =>
      let (rs, fs'') := batchWriteGo fs' (i + 1) rest
      (⟨i, true⟩ :: rs, fs'')
    | none =>
      let (rs, fs'') := batchWriteGo fs (i + 1) rest
      (⟨i, false⟩ :: rs, fs'')

/-- Aggregate response of `batch_write_files` (source lines 868-883). -/
structure BatchWriteOut where
  total : Nat
  successful : Nat
  failed : Nat
  results : List WriteBatchResult
  isError : Bool
  fs : FS

/-- `handleBatchWriteFiles` (source lines 850-884); note `isError:
failed > 0` (line 882), unlike every other batch handler. -/
def handleBatchWriteFiles (fs : FS) (files : List WriteFileItem) :
    BatchWriteOut :=
  let (results, fs') := batchWriteGo fs 0 files
  let successful := (results.filter (fun r => r.success)).length
  let failed := (results.filter (fun r => r.success = false)).length
  ⟨files.length, successful, failed,
    jsSortBy (fun a b => Nat.ble a.index b.index) results,
    decide (0 < failed), fs'⟩

/-- One entry of the `batch_read_files` results. -/
structure ReadBatchResult where
  index : Nat
  success : Bool
  content : Option (List Char) := none
deriving DecidableEq

/-- Aggregate response of `batch_read_files` (source lines 832-847). -/
structure BatchReadOut where
  total : Nat
  successful : Nat
  failed : Nat
  results : List ReadBatchResult
  isError : Bool

/-- `handleBatchReadFiles` (source lines 818-848); `isError` is set
only when every item failed (line 846). -/
def handleBatchReadFiles (fs : FS) (paths : List String) : BatchReadOut :=
  let results := paths.enum.map (fun p =>
    match fs.files p.2 with
    | some c => (⟨p.1, true, some c⟩ : ReadBatchResult)
    | none => ⟨p.1, false, none⟩)
  let successful := (results.filter (fun r => r.success)).length
  let failed := (results.filter (fun r => r.success = false)).length
  ⟨paths.length, successful, failed,
    jsSortBy (fun a b => Nat.ble a.index b.index) results,
    decide (0 < failed ∧ successful = 0)⟩

/-! ## Basic lemmas about the embedded primitives -/

theorem isPre_iff (p s : List Char) : isPre p s = true ↔ p <+: s := by
  induction p generalizing s with
  | nil =>
    constructor
    · intro _; exact ⟨s, rfl⟩
    · intro _; rfl
  | cons a p ih =>
    cases s with
    | nil =>
      constructor
      · intro h; exact absurd h (by simp [isPre])
      · rintro ⟨r, hr⟩; exact absurd hr (by simp)
    | cons b s =>
      show (a = b && isPre p s) = true ↔ _
      rw [Bool.and_eq_true, decide_eq_true_eq, ih, List.cons_prefix_cons]

theorem containsSub_iff (p s : List Char) :
    containsSub p s = true ↔ p <:+: s := by
  induction s with
  | nil =>
    constructor
    · intro h
      exact ((isPre_iff p []).mp h).isInfix
    · rintro ⟨l, r, he⟩
      have hp : l = [] ∧ p = [] ∧ r = [] := by
        simpa [List.append_eq_nil] using he
      obtain ⟨-, hp, -⟩ := hp
      subst hp
      rfl
  | cons b t ih =>
    show (isPre p (b :: t) || containsSub p t) = true ↔ _
    rw [Bool.or_eq_true, isPre_iff, ih]
    constructor
    · rintro (h | h)
      · exact h.isInfix
      · obtain ⟨l, r, he⟩ := h
        exact ⟨b :: l, r, by simp [he]⟩
    · rintro ⟨l, r, he⟩
      cases l with
      | nil => exact Or.inl ⟨r, by simpa using he⟩
      | cons c l =>
        rw [List.cons_append, List.cons_append] at he
        injection he with h1 h2
        exact Or.inr ⟨l, r, by simpa using h2⟩

theorem levFuel_le (fuel : Nat) (s1 s2 : List Char) :
    levFuel fuel s1 s2 ≤ max s1.length s2.length := by
  induction fuel generalizing s1 s2 with
  | zero =>
    cases s1 with
    | nil => simp [levFuel]
    | cons a s1 =>
      cases s2 with
      | nil => simp [levFuel]
      | cons b s2 => simp [levFuel]
  | succ fuel ih =>
    cases s1 with
    | nil => simp [levFuel]
    | cons a s1 =>
      cases s2 with
      | nil => simp [levFuel]
      | cons b s2 =>
        have h3 : levFuel fuel s1 s2 + (if a = b then 0 else 1) ≤
            max (a :: s1).length (b :: s2).length := by
          have := ih s1 s2
          have hc : (if a = b then 0 else 1) ≤ 1 := by split <;> omega
          simp only [List.length_cons]
          omega
        calc levFuel (fuel + 1) (a :: s1) (b :: s2) ≤
              levFuel fuel s1 s2 + (if a = b then 0 else 1) := by
              simp only [levFuel]
              exact min_le_right _ _
          _ ≤ _ := h3

theorem levenshteinDistance_le (s1 s2 : List Char) :
    levenshteinDistance s1 s2 ≤ max s1.length s2.length :=
  levFuel_le _ s1 s2

theorem splitGo_ne_nil (sep : List Char) (fuel : Nat) (s : List Char) :
    splitGo sep fuel s ≠ [] := by
  induction fuel generalizing s with
  | zero => cases s <;> simp [splitGo]
  | succ fuel ih =>
    cases s with
    | nil => simp [splitGo]
    | cons c t =>
      simp only [splitGo]
      split
      · simp
      · split <;> simp

theorem splitGo_length (sep : List Char) (fuel : Nat) (s : List Char) :
    (splitGo sep fuel s).length = countOccGo sep fuel s + 1 := by
  induction fuel generalizing s with
  | zero => cases s <;> simp [splitGo, countOccGo]
  | succ fuel ih =>
    cases s with
    | nil => simp [splitGo, countOccGo]
    | cons c t =>
      simp only [splitGo, countOccGo]
      split
      · simp only [List.length_cons, ih]
        omega
      · have hne := splitGo_ne_nil sep fuel t
        have hlen := ih t
        cases hsp : splitGo sep fuel t with
        | nil => exact absurd hsp hne
        | cons h rest =>
          simp only [hsp, List.length_cons] at hlen ⊢
          omega

theorem joinWith_splitGo (sep repl : List Char) (fuel : Nat)
    (s : List Char) :
    joinWith repl (splitGo sep fuel s) = replaceAllGo sep repl fuel s := by
  induction fuel generalizing s with
  | zero => cases s <;> simp [splitGo, replaceAllGo, joinWith]
  | succ fuel ih =>
    cases s with
    | nil => simp [splitGo, replaceAllGo, joinWith]
    | cons c t =>
      simp only [splitGo, replaceAllGo]
      split
      · have hne := splitGo_ne_nil sep fuel ((c :: t).drop sep.length)
        cases hsp : splitGo sep fuel ((c :: t).drop sep.length) with
        | nil => exact absurd hsp hne
        | cons h rest =>
          rw [← ih ((c :: t).drop sep.length), hsp]
          simp [joinWith]
      · have hne := splitGo_ne_nil sep fuel t
        cases hsp : splitGo sep fuel t with
        | nil => exact absurd hsp hne
        | cons h rest =>
          rw [← ih t, hsp]
          cases rest with
          | nil => simp [joinWith]
          | cons h2 rest2 => simp [joinWith]

/-- The occurrence count the source computes as
`content.split(oldStr).length - 1` (lines 725 and 953) is exactly the
greedy non-overlapping occurrence count, for any non-empty search
string. -/
theorem jsSplit_length_sub_one (sep s : List Char) (hsep : sep ≠ []) :
    (jsSplit sep s).length - 1 = countOcc sep s := by
  rw [jsSplit, if_neg hsep, countOcc, splitGo_length]
  omega

/-- The replace-all path of the source,
`content.split(oldStr).join(newStr)` (line 981), replaces exactly the
greedily-counted non-overlapping occurrences, for any non-empty search
string. -/
theorem jsSplit_join (sep repl s : List Char) (hsep : sep ≠ []) :
    joinWith repl (jsSplit sep s) = replaceAllOcc sep repl s := by
  rw [jsSplit, if_neg hsep, replaceAllOcc, joinWith_splitGo]

/-! ## Concrete sample inputs used by witnesses and counterexamples -/

/-- A sample filesystem: one file at path "a" with content "aXbXc",
all paths writable. -/
def sampleFS : FS :=
  ⟨fun p => if p = "a" then some "aXbXc".data else none, fun _ => true⟩

/-- A sample filesystem: one file at path "f" with the one-line content
"a". -/
def oneLineFS : FS :=
  ⟨fun p => if p = "f" then some "a".data else none, fun _ => true⟩

/-! ## Claim theorems -/

unseal Rat.add Rat.sub Rat.mul Rat.inv in
/-- Claim C6: in fuzzy search mode, scanning the line "color" for the
pattern "colour" with fuzzyThreshold 0.7 yields exactly one match, of
similarity 1 - 1/6 = 5/6 (the window of length 5 at offset 0; the
length-4 windows score 2/3 < 0.7 and no window of the pattern's own
length fits in the line); with fuzzyThreshold 0.95 the scan yields no
match (5/6 < 0.95). -/
theorem C6_fuzzy_color_colour :
    findFuzzyMatches "color".data "colour".data (7 / 10) true =
      [⟨0, 5, "color".data, 5 / 6⟩] ∧
    findFuzzyMatches "color".data "colour".data (19 / 20) true = [] := by
  constructor
  · decide
  · decide

/-- Claim C9: `similarityRatio a b` equals
`1 - distance(a,b) / max(|a|, |b|)` whenever at least one string is
non-empty, equals 1 when both are empty, and lies in [0, 1] for all
non-empty `a`, `b`. -/
theorem C9_similarity_definition :
    (∀ a b : List Char, a ≠ [] ∨ b ≠ [] →
      similarityRatio a b =
        1 - (levenshteinDistance a b : ℚ) / ((max a.length b.length : Nat) : ℚ)) ∧
    similarityRatio [] [] = 1 ∧
    (∀ a b : List Char, a ≠ [] → b ≠ [] →
      0 ≤ similarityRatio a b ∧ similarityRatio a b ≤ 1) := by
  have hmax : ∀ a b : List Char, a ≠ [] ∨ b ≠ [] →
      max a.length b.length ≠ 0 := by
    intro a b h
    rcases h with h | h
    · have := List.length_pos.mpr h
      have := Nat.le_max_left a.length b.length
      omega
    · have := List.length_pos.mpr h
      have := Nat.le_max_right a.length b.length
      omega
  refine ⟨?_, ?_, ?_⟩
  · intro a b h
    simp only [similarityRatio, if_neg (hmax a b h)]
  · rfl
  · intro a b ha hb
    have hm := hmax a b (Or.inl ha)
    have hmq : (0 : ℚ) < ((max a.length b.length : Nat) : ℚ) := by
      exact_mod_cast Nat.pos_of_ne_zero hm
    have hd : ((levenshteinDistance a b : Nat) : ℚ) ≤
        ((max a.length b.length : Nat) : ℚ) := by
      exact_mod_cast levenshteinDistance_le a b
    have hdiv0 : (0 : ℚ) ≤
        (levenshteinDistance a b : ℚ) / ((max a.length b.length : Nat) : ℚ) :=
      div_nonneg (by positivity) (le_of_lt hmq)
    have hdiv1 : (levenshteinDistance a b : ℚ) /
        ((max a.length b.length : Nat) : ℚ) ≤ 1 :=
      (div_le_one hmq).mpr hd
    simp only [similarityRatio, if_neg hm]
    constructor
    · linarith
    · linarith

/-- Witness for C9 at a = "ab", b = "b". -/
theorem C9_similarity_definition_witness :
    similarityRatio "ab".data "b".data =
      1 - (levenshteinDistance "ab".data "b".data : ℚ) /
        ((max "ab".data.length "b".data.length : Nat) : ℚ) ∧
    (0 ≤ similarityRatio "ab".data "b".data ∧
      similarityRatio "ab".data "b".data ≤ 1) :=
  ⟨C9_similarity_definition.1 "ab".data "b".data (Or.inl (by decide)),
    C9_similarity_definition.2.2 "ab".data "b".data (by decide) (by decide)⟩

/-- Claim C10: `str_replace` accepts the legacy `old_str`/`new_str`
parameter names as aliases of `oldText`/`newText`; the new names take
precedence when both are supplied; and when the resolved old string is
absent or empty the call fails with the "oldText parameter is required"
error (`ReplaceErr.missingOldText`) before touching the filesystem: the
file is neither read nor written and the filesystem is unchanged. -/
theorem C10_param_aliases :
    (∀ (p : String) (o n : List Char) (fs : FS),
      handleStrReplace ⟨p, none, none, some o, some n⟩ fs =
        handleStrReplace ⟨p, some o, some n, none, none⟩ fs) ∧
    (∀ (p : String) (o n o2 n2 : List Char) (fs : FS),
      handleStrReplace ⟨p, some o, some n, some o2, some n2⟩ fs =
        handleStrReplace ⟨p, some o, some n, none, none⟩ fs) ∧
    (∀ (args : StrReplaceArgs) (fs : FS),
      (args.oldText <|> args.old_str) = none ∨
        (args.oldText <|> args.old_str) = some [] →
      handleStrReplace args fs = ⟨some .missingOldText, fs, []⟩) := by
  refine ⟨fun p o n fs => rfl, fun p o n o2 n2 fs => rfl, ?_⟩
  intro args fs h
  unfold handleStrReplace
  rcases h with h | h
  · rw [h]
  · rw [h]
    simp

/-- Witness for C10: on `sampleFS`, a call with only the legacy names
equals the same call with the new names, the new names win when both
are given, and a call whose `oldText` is the empty string fails with
the missing-parameter error leaving the filesystem untouched. -/
theorem C10_param_aliases_witness :
    handleStrReplace ⟨"a", none, none, some "X".data, some "Y".data⟩ sampleFS =
      handleStrReplace ⟨"a", some "X".data, some "Y".data, none, none⟩ sampleFS ∧
    handleStrReplace ⟨"a", some "X".data, some "Y".data, some "Q".data,
        some "R".data⟩ sampleFS =
      handleStrReplace ⟨"a", some "X".data, some "Y".data, none, none⟩ sampleFS ∧
    handleStrReplace ⟨"a", some [], none, some "X".data, none⟩ sampleFS =
      ⟨some .missingOldText, sampleFS, []⟩ :=
  ⟨C10_param_aliases.1 "a" "X".data "Y".data sampleFS,
    C10_param_aliases.2.1 "a" "X".data "Y".data "Q".data "R".data sampleFS,
    C10_param_aliases.2.2 ⟨"a", some [], none, some "X".data, none⟩ sampleFS
      (Or.inr rfl)⟩

/-! ## Helper lemmas: the substitution engine's branch structure -/

theorem handleStrReplace_fail (args : StrReplaceArgs) (fs : FS)
    (h : (handleStrReplace args fs).err.isSome = true) :
    (handleStrReplace args fs).fs = fs ∧
      writesOf (handleStrReplace args fs).trace = [] := by
  rcases hor : args.oldText <|> args.old_str with _ | o
  · simp [handleStrReplace, hor, writesOf]
  · by_cases ho : o = []
    · simp [handleStrReplace, hor, ho, writesOf]
    · rcases hc : fs.files args.path with _ | content
      · simp [handleStrReplace, hor, ho, hc, writesOf]
      · by_cases h0 : (jsSplit o content).length - 1 = 0
        · simp [handleStrReplace, hor, ho, hc, h0, writesOf]
        · by_cases h1 : 1 < (jsSplit o content).length - 1
          · simp [handleStrReplace, hor, ho, hc, h0, h1, writesOf]
          · rcases hw : fsWrite fs args.path
                (replaceFirst o ((args.newText <|> args.new_str).getD [])
                  content) with _ | fs2
            · simp [handleStrReplace, hor, ho, hc, h0, h1, hw, writesOf]
            · simp [handleStrReplace, hor, ho, hc, h0, h1, hw] at h

theorem handleStrReplace_causes (args : StrReplaceArgs) (fs : FS)
    (o : List Char) (hor : (args.oldText <|> args.old_str) = some o)
    (ho : o ≠ []) :
    (fs.files args.path = none →
      (handleStrReplace args fs).err = some .fileNotFound) ∧
    (∀ content, fs.files args.path = some content →
      countOcc o content = 0 →
      (handleStrReplace args fs).err = some .stringNotFound) ∧
    (∀ content, fs.files args.path = some content →
      1 < countOcc o content →
      (handleStrReplace args fs).err = some (.notUnique (countOcc o content))) := by
  refine ⟨?_, ?_, ?_⟩
  · intro hc
    simp [handleStrReplace, hor, ho, hc]
  · intro content hc h0
    rw [← jsSplit_length_sub_one o content ho] at h0
    simp [handleStrReplace, hor, ho, hc, h0]
  · intro content hc h1
    rw [← jsSplit_length_sub_one o content ho] at h1 ⊢
    have h0 : ¬ (jsSplit o content).length - 1 = 0 := by omega
    simp [handleStrReplace, hor, ho, hc, h0, h1]

theorem batchStrReplaceStep_fail (fs : FS) (i : Nat) (op : ReplaceItem)
    (h : (batchStrReplaceStep fs i op).1.success = false) :
    (batchStrReplaceStep fs i op).2.1 = fs ∧
      writesOf (batchStrReplaceStep fs i op).2.2 = [] := by
  rcases hc : fs.files op.path with _ | content
  · simp [batchStrReplaceStep, hc, writesOf]
  · by_cases h0 : (jsSplit op.oldText content).length - 1 = 0
    · simp [batchStrReplaceStep, hc, h0, writesOf]
    · by_cases h1 : op.replaceAll.getD false = false ∧
          1 < (jsSplit op.oldText content).length - 1
      · simp only [batchStrReplaceStep, hc, if_neg h0, if_pos h1]
        constructor <;> simp [writesOf]
      · rcases hw : fsWrite fs op.path
            (if op.replaceAll.getD false then
              joinWith (op.newText.getD []) (jsSplit op.oldText content)
            else replaceFirst op.oldText (op.newText.getD []) content)
            with _ | fs2
        · simp [batchStrReplaceStep, hc, h0, h1, hw, writesOf]
        · simp [batchStrReplaceStep, hc, h0, h1, hw] at h

theorem batchStrReplaceStep_index (fs : FS) (i : Nat) (op : ReplaceItem) :
    (batchStrReplaceStep fs i op).1.index = i := by
  rcases hc : fs.files op.path with _ | content
  · simp [batchStrReplaceStep, hc]
  · by_cases h0 : (jsSplit op.oldText content).length - 1 = 0
    · simp [batchStrReplaceStep, hc, h0]
    · by_cases h1 : op.replaceAll.getD false = false ∧
          1 < (jsSplit op.oldText content).length - 1
      · simp only [batchStrReplaceStep, hc, if_neg h0, if_pos h1]
      · rcases hw : fsWrite fs op.path
            (if op.replaceAll.getD false then
              joinWith (op.newText.getD []) (jsSplit op.oldText content)
            else replaceFirst op.oldText (op.newText.getD []) content)
            with _ | fs2
        · simp [batchStrReplaceStep, hc, h0, h1, hw]
        · simp [batchStrReplaceStep, hc, h0, h1, hw]

theorem batchStrReplaceStep_causes (fs : FS) (i : Nat) (op : ReplaceItem) :
    (fs.files op.path = none →
      (batchStrReplaceStep fs i op).1.success = false) ∧
    (∀ content, fs.files op.path = some content → op.oldText ≠ [] →
      (countOcc op.oldText content = 0 ∨
        (op.replaceAll.getD false = false ∧ 1 < countOcc op.oldText content)) →
      (batchStrReplaceStep fs i op).1.success = false) := by
  constructor
  · intro hc
    simp [batchStrReplaceStep, hc]
  · intro content hc ho hcause
    rw [← jsSplit_length_sub_one op.oldText content ho] at hcause
    rcases hcause with h0 | h1
    · simp [batchStrReplaceStep, hc, h0]
    · have h0 : ¬ (jsSplit op.oldText content).length - 1 = 0 := by omega
      simp only [batchStrReplaceStep, hc, if_neg h0, if_pos h1]

theorem batchStrReplaceStep_replaceAll_success (fs : FS) (i : Nat)
    (op : ReplaceItem) (content : List Char)
    (hc : fs.files op.path = some content) (hra : op.replaceAll = some true)
    (hs : (batchStrReplaceStep fs i op).1.success = true) :
    (batchStrReplaceStep fs i op).2.2 =
      [.readF op.path content,
        .writeF op.path (joinWith (op.newText.getD [])
          (jsSplit op.oldText content))] ∧
    (batchStrReplaceStep fs i op).1.result =
      some ⟨op.path, (jsSplit op.oldText content).length - 1,
        op.oldText.length, (op.newText.getD []).length⟩ := by
  by_cases h0 : (jsSplit op.oldText content).length - 1 = 0
  · simp [batchStrReplaceStep, hc, h0] at hs
  · have h1 : ¬ (op.replaceAll.getD false = false ∧
        1 < (jsSplit op.oldText content).length - 1) := by
      simp [hra]
    rcases hw : fsWrite fs op.path
        (if op.replaceAll.getD false then
          joinWith (op.newText.getD []) (jsSplit op.oldText content)
        else replaceFirst op.oldText (op.newText.getD []) content)
        with _ | fs2
    · simp [batchStrReplaceStep, hc, h0, h1, hw] at hs
    · simp only [hra, Option.getD_some, if_true] at hw
      simp [batchStrReplaceStep, hc, h0, h1, hra, hw]

/-- Claim C1: whenever a substitution invocation — `str_replace` or one
item of `batch_str_replace` — fails (in particular when the path does
not resolve to an existing file, when the search text occurs zero
times, or when it occurs more than once with `replaceAll` false), no
write is performed and the filesystem, in particular the target file's
content, is unchanged.  The first conjunct covers every failure of the
single handler, the second ties the listed causes to failure for it,
and the remaining conjuncts do the same for a batch item. -/
theorem C1_failure_preserves_file :
    (∀ (args : StrReplaceArgs) (fs : FS),
      (handleStrReplace args fs).err.isSome = true →
      (handleStrReplace args fs).fs = fs ∧
        writesOf (handleStrReplace args fs).trace = []) ∧
    (∀ (args : StrReplaceArgs) (fs : FS) (o : List Char),
      (args.oldText <|> args.old_str) = some o → o ≠ [] →
      (fs.files args.path = none →
        (handleStrReplace args fs).err = some .fileNotFound) ∧
      (∀ content, fs.files args.path = some content →
        countOcc o content = 0 →
        (handleStrReplace args fs).err = some .stringNotFound) ∧
      (∀ content, fs.files args.path = some content →
        1 < countOcc o content →
        (handleStrReplace args fs).err =
          some (.notUnique (countOcc o content)))) ∧
    (∀ (fs : FS) (i : Nat) (op : ReplaceItem),
      ((batchStrReplaceStep fs i op).1.success = false →
        (batchStrReplaceStep fs i op).2.1 = fs ∧
          writesOf (batchStrReplaceStep fs i op).2.2 = []) ∧
      (fs.files op.path = none →
        (batchStrReplaceStep fs i op).1.success = false) ∧
      (∀ content, fs.files op.path = some content → op.oldText ≠ [] →
        (countOcc op.oldText content = 0 ∨
          (op.replaceAll.getD false = false ∧
            1 < countOcc op.oldText content)) →
        (batchStrReplaceStep fs i op).1.success = false)) :=
  ⟨handleStrReplace_fail, handleStrReplace_causes,
    fun fs i op =>
      ⟨batchStrReplaceStep_fail fs i op,
        (batchStrReplaceStep_causes fs i op).1,
        (batchStrReplaceStep_causes fs i op).2⟩⟩

/-- Witness for C1: on `sampleFS` ("aXbXc" at path "a"), the single
handler fails on the ambiguous search text "X" leaving the filesystem
untouched with no writes, and a batch item on the missing path "zz"
fails likewise. -/
theorem C1_failure_preserves_file_witness :
    (handleStrReplace ⟨"a", some "X".data, some "Y".data, none, none⟩
        sampleFS).err.isSome = true ∧
    ((handleStrReplace ⟨"a", some "X".data, some "Y".data, none, none⟩
        sampleFS).fs = sampleFS ∧
      writesOf (handleStrReplace ⟨"a", some "X".data, some "Y".data,
        none, none⟩ sampleFS).trace = []) ∧
    (batchStrReplaceStep sampleFS 0
        ⟨"zz", "X".data, none, none⟩).1.success = false ∧
    ((batchStrReplaceStep sampleFS 0
        ⟨"zz", "X".data, none, none⟩).2.1 = sampleFS ∧
      writesOf (batchStrReplaceStep sampleFS 0
        ⟨"zz", "X".data, none, none⟩).2.2 = []) :=
  ⟨by decide,
    C1_failure_preserves_file.1 _ _ (by decide),
    by decide,
    (C1_failure_preserves_file.2.2 sampleFS 0
      ⟨"zz", "X".data, none, none⟩).1 (by decide)⟩

/-- Claim C5: a `batch_str_replace` item with `replaceAll` on the file
"aXbXc", replacing "X" by "Y", rewrites the file to "aYbYc" with a
single write and reports 2 occurrences replaced; in general a
successful `replaceAll` item performs exactly one write, whose content
replaces every greedily-counted non-overlapping occurrence of the
search text, and reports exactly that occurrence count. -/
theorem C5_replace_all_occurrences :
    ((batchStrReplaceStep sampleFS 0
        ⟨"a", "X".data, some "Y".data, some true⟩).1.result =
        some ⟨"a", 2, 1, 1⟩ ∧
      (batchStrReplaceStep sampleFS 0
        ⟨"a", "X".data, some "Y".data, some true⟩).2.1.files "a" =
        some "aYbYc".data ∧
      writesOf (batchStrReplaceStep sampleFS 0
        ⟨"a", "X".data, some "Y".data, some true⟩).2.2 =
        [.writeF "a" "aYbYc".data]) ∧
    (∀ (fs : FS) (i : Nat) (op : ReplaceItem) (content : List Char),
      fs.files op.path = some content → op.oldText ≠ [] →
      op.replaceAll = some true →
      (batchStrReplaceStep fs i op).1.success = true →
      writesOf (batchStrReplaceStep fs i op).2.2 =
        [.writeF op.path
          (replaceAllOcc op.oldText (op.newText.getD []) content)] ∧
      (batchStrReplaceStep fs i op).1.result =
        some ⟨op.path, countOcc op.oldText content, op.oldText.length,
          (op.newText.getD []).length⟩) := by
  constructor
  · refine ⟨by decide, by decide, by decide⟩
  · intro fs i op content hc ho hra hs
    obtain ⟨htr, hres⟩ :=
      batchStrReplaceStep_replaceAll_success fs i op content hc hra hs
    constructor
    · rw [htr, jsSplit_join op.oldText (op.newText.getD []) content ho]
      simp [writesOf]
    · rw [hres, jsSplit_length_sub_one op.oldText content ho]

/-- Witness for C5's general part, at the C5 scenario itself. -/
theorem C5_replace_all_occurrences_witness :
    writesOf (batchStrReplaceStep sampleFS 0
        ⟨"a", "X".data, some "Y".data, some true⟩).2.2 =
      [.writeF "a" (replaceAllOcc "X".data "Y".data "aXbXc".data)] ∧
    (batchStrReplaceStep sampleFS 0
        ⟨"a", "X".data, some "Y".data, some true⟩).1.result =
      some ⟨"a", countOcc "X".data "aXbXc".data, "X".data.length,
        "Y".data.length⟩ :=
  C5_replace_all_occurrences.2 sampleFS 0
    ⟨"a", "X".data, some "Y".data, some true⟩ "aXbXc".data
    (by decide) (by decide) rfl (by decide)

/-! ## Helper lemmas: the line scanner -/

theorem scanGo_length_le (pred : List Char → Bool) (maxM : Nat)
    (lines : List (List Char)) :
    ∀ (i found : Nat),
      (scanGo pred maxM lines i found).1.length + found ≤ max maxM found := by
  induction lines with
  | nil =>
    intro i found
    simp only [scanGo]
    simp
  | cons l rest ih =>
    intro i found
    by_cases hf : maxM ≤ found
    · simp only [scanGo, if_pos hf]
      simp
    · simp only [scanGo, if_neg hf]
      by_cases hp : pred l
      · have hrec := ih (i + 1) (found + 1)
        rw [Nat.max_eq_left (by omega : found + 1 ≤ maxM)] at hrec
        rw [Nat.max_eq_left (by omega : found ≤ maxM)]
        simp [hp]
        omega
      · have hrec := ih (i + 1) found
        simpa [hp] using hrec

/-- Claim C2 (amended): for every successful `search_in_file`
invocation, `matchCount ≤ maxMatches`, and `truncated = some true` iff
`matchCount = maxMatches` — iff the match cap was reached.  (The
original claim's "iff the scan stopped before the last line was
examined" fails: the cap can be reached exactly at the last line, see
the counterexample.) -/
theorem C2_matchcount_cap (fs : FS) (args : SearchArgs)
    (h : (handleSearchInFile fs args).success = true) :
    ∃ mc, (handleSearchInFile fs args).matchCount = some mc ∧
      mc ≤ args.maxMatches.getD 100 ∧
      ((handleSearchInFile fs args).truncated = some true ↔
        mc = args.maxMatches.getD 100) := by
  rcases hc : fs.files args.path with _ | content
  · simp [handleSearchInFile, hc] at h
  · have hlen := scanGo_length_le
      (litPred args.pattern (args.caseSensitive.getD true))
      (args.maxMatches.getD 100) (jsSplit ['\n'] content) 0 0
    rw [Nat.max_eq_left (Nat.zero_le _)] at hlen
    refine ⟨(scanGo (litPred args.pattern (args.caseSensitive.getD true))
      (args.maxMatches.getD 100) (jsSplit ['\n'] content) 0 0).1.length,
      ?_, by omega, ?_⟩
    · simp [handleSearchInFile, hc]
    · simp only [handleSearchInFile, hc, Option.some.injEq,
        decide_eq_true_iff]
      omega

/-- Counterexample to C2 as stated: a one-line file whose single line
matches, with `maxMatches = 1`.  The scan examines every line of the
file (`searchExamined` equals `totalLines`), so it was not cut short
before EOF, yet `truncated` is reported `true` because the source sets
`truncated: matches.length >= maxMatches` (line 643). -/
theorem C2_truncated_at_eof :
    (handleSearchInFile oneLineFS ⟨"f", "a".data, none, some 1⟩).success =
      true ∧
    (handleSearchInFile oneLineFS ⟨"f", "a".data, none, some 1⟩).truncated =
      some true ∧
    searchExamined oneLineFS ⟨"f", "a".data, none, some 1⟩ =
      (handleSearchInFile oneLineFS
        ⟨"f", "a".data, none, some 1⟩).totalLines.getD 0 :=
  ⟨by decide, by decide, by decide⟩

/-- Witness for C2 on `oneLineFS` with the default `maxMatches`. -/
theorem C2_matchcount_cap_witness :
    ∃ mc, (handleSearchInFile oneLineFS
        ⟨"f", "a".data, none, none⟩).matchCount = some mc ∧
      mc ≤ 100 ∧
      ((handleSearchInFile oneLineFS
        ⟨"f", "a".data, none, none⟩).truncated = some true ↔ mc = 100) :=
  C2_matchcount_cap oneLineFS ⟨"f", "a".data, none, none⟩ (by decide)

/-! ## Helper lemmas: the sequential batch loop and the stable sort -/

theorem batchStrReplaceGo_cons (stop : Bool) (fs : FS) (i : Nat)
    (op : ReplaceItem) (rest : List ReplaceItem) :
    batchStrReplaceGo stop fs i (op :: rest) =
      if (batchStrReplaceStep fs i op).1.success = false ∧ stop = true then
        ([(batchStrReplaceStep fs i op).1],
          (batchStrReplaceStep fs i op).2.1)
      else
        ((batchStrReplaceStep fs i op).1 ::
            (batchStrReplaceGo stop ((batchStrReplaceStep fs i op).2.1)
              (i + 1) rest).1,
          (batchStrReplaceGo stop ((batchStrReplaceStep fs i op).2.1)
            (i + 1) rest).2) := rfl

theorem jsSortBy_of_pairwise {α : Type} (le : α → α → Bool) (l : List α)
    (h : l.Pairwise (fun a b => le a b = true)) : jsSortBy le l = l := by
  induction l with
  | nil => rfl
  | cons x xs ih =>
    rw [List.pairwise_cons] at h
    show insertBy le x (jsSortBy le xs) = x :: xs
    rw [ih h.2]
    cases xs with
    | nil => rfl
    | cons y ys =>
      have hxy : le x y = true := h.1 y (by simp)
      show (if le x y = true then x :: y :: ys
        else y :: insertBy le x ys) = x :: y :: ys
      rw [if_pos hxy]

/-- Claim C8: for `batch_str_replace` on the item list
`[a, b, c]` where `a` succeeds and `b` fails (on the filesystem `a`
leaves behind), `stopOnError = true` returns exactly the two result
entries for items 0 and 1 and never attempts the third item (the final
filesystem is the one after item `a`; item `b`'s failure changed
nothing); with `stopOnError` unset all three entries are returned and
item 2 is attempted on the same filesystem, its outcome independent of
item 1's failure. -/
theorem C8_stop_on_error (fs0 : FS) (a b c : ReplaceItem)
    (ha : (batchStrReplaceStep fs0 0 a).1.success = true)
    (hb : (batchStrReplaceStep ((batchStrReplaceStep fs0 0 a).2.1) 1
        b).1.success = false) :
    (handleBatchStrReplace fs0 [a, b, c] (some true)).results =
      [(batchStrReplaceStep fs0 0 a).1,
        (batchStrReplaceStep ((batchStrReplaceStep fs0 0 a).2.1) 1 b).1] ∧
    ((handleBatchStrReplace fs0 [a, b, c] (some true)).results.map
      (fun r => r.index)) = [0, 1] ∧
    (handleBatchStrReplace fs0 [a, b, c] (some true)).fs =
      (batchStrReplaceStep fs0 0 a).2.1 ∧
    (handleBatchStrReplace fs0 [a, b, c] none).results =
      [(batchStrReplaceStep fs0 0 a).1,
        (batchStrReplaceStep ((batchStrReplaceStep fs0 0 a).2.1) 1 b).1,
        (batchStrReplaceStep ((batchStrReplaceStep fs0 0 a).2.1) 2 c).1] := by
  have hfsb :=
    (batchStrReplaceStep_fail ((batchStrReplaceStep fs0 0 a).2.1) 1 b hb).1
  have hgoT : batchStrReplaceGo true fs0 0 [a, b, c] =
      ([(batchStrReplaceStep fs0 0 a).1,
        (batchStrReplaceStep ((batchStrReplaceStep fs0 0 a).2.1) 1 b).1],
        (batchStrReplaceStep ((batchStrReplaceStep fs0 0 a).2.1) 1 b).2.1) := by
    rw [batchStrReplaceGo_cons, if_neg (by simp [ha])]
    rw [batchStrReplaceGo_cons, if_pos ⟨hb, rfl⟩]
  have hgoF : batchStrReplaceGo false fs0 0 [a, b, c] =
      ([(batchStrReplaceStep fs0 0 a).1,
        (batchStrReplaceStep ((batchStrReplaceStep fs0 0 a).2.1) 1 b).1,
        (batchStrReplaceStep ((batchStrReplaceStep fs0 0 a).2.1) 2 c).1],
        (batchStrReplaceStep
          ((batchStrReplaceStep ((batchStrReplaceStep fs0 0 a).2.1) 1
            b).2.1) 2 c).2.1) := by
    rw [batchStrReplaceGo_cons, if_neg (by simp)]
    rw [batchStrReplaceGo_cons, if_neg (by simp)]
    rw [batchStrReplaceGo_cons, if_neg (by simp), batchStrReplaceGo]
    rw [hfsb]
  have hsortT : sortByIndex
      [(batchStrReplaceStep fs0 0 a).1,
        (batchStrReplaceStep ((batchStrReplaceStep fs0 0 a).2.1) 1 b).1] =
      [(batchStrReplaceStep fs0 0 a).1,
        (batchStrReplaceStep ((batchStrReplaceStep fs0 0 a).2.1) 1 b).1] := by
    apply jsSortBy_of_pairwise
    simp [batchStrReplaceStep_index]
  have hsortF : sortByIndex
      [(batchStrReplaceStep fs0 0 a).1,
        (batchStrReplaceStep ((batchStrReplaceStep fs0 0 a).2.1) 1 b).1,
        (batchStrReplaceStep ((batchStrReplaceStep fs0 0 a).2.1) 2 c).1] =
      [(batchStrReplaceStep fs0 0 a).1,
        (batchStrReplaceStep ((batchStrReplaceStep fs0 0 a).2.1) 1 b).1,
        (batchStrReplaceStep ((batchStrReplaceStep fs0 0 a).2.1) 2 c).1] := by
    apply jsSortBy_of_pairwise
    simp [batchStrReplaceStep_index]
  refine ⟨?_, ?_, ?_, ?_⟩
  · show sortByIndex (batchStrReplaceGo true fs0 0 [a, b, c]).1 = _
    rw [hgoT]
    exact hsortT
  · show (sortByIndex (batchStrReplaceGo true fs0 0 [a, b, c]).1).map _ = _
    rw [hgoT, hsortT]
    simp [batchStrReplaceStep_index]
  · show (batchStrReplaceGo true fs0 0 [a, b, c]).2 = _
    rw [hgoT, hfsb]
  · show sortByIndex (batchStrReplaceGo false fs0 0 [a, b, c]).1 = _
    rw [hgoF]
    exact hsortF

/-- Witness for C8 on `sampleFS`: item 0 replaces the unique "a" in
file "a", item 1 targets the missing path "zz" and fails, item 2
replaces the unique "c". -/
theorem C8_stop_on_error_witness :
    (handleBatchStrReplace sampleFS
      [⟨"a", "a".data, some "b".data, none⟩, ⟨"zz", "Q".data, none, none⟩,
        ⟨"a", "c".data, some "d".data, none⟩] (some true)).results =
      [(batchStrReplaceStep sampleFS 0 ⟨"a", "a".data, some "b".data, none⟩).1,
        (batchStrReplaceStep
          ((batchStrReplaceStep sampleFS 0
            ⟨"a", "a".data, some "b".data, none⟩).2.1) 1
          ⟨"zz", "Q".data, none, none⟩).1] ∧
    ((handleBatchStrReplace sampleFS
      [⟨"a", "a".data, some "b".data, none⟩, ⟨"zz", "Q".data, none, none⟩,
        ⟨"a", "c".data, some "d".data, none⟩] (some true)).results.map
      (fun r => r.index)) = [0, 1] ∧
    (handleBatchStrReplace sampleFS
      [⟨"a", "a".data, some "b".data, none⟩, ⟨"zz", "Q".data, none, none⟩,
        ⟨"a", "c".data, some "d".data, none⟩] (some true)).fs =
      (batchStrReplaceStep sampleFS 0
        ⟨"a", "a".data, some "b".data, none⟩).2.1 ∧
    (handleBatchStrReplace sampleFS
      [⟨"a", "a".data, some "b".data, none⟩, ⟨"zz", "Q".data, none, none⟩,
        ⟨"a", "c".data, some "d".data, none⟩] none).results =
      [(batchStrReplaceStep sampleFS 0 ⟨"a", "a".data, some "b".data, none⟩).1,
        (batchStrReplaceStep
          ((batchStrReplaceStep sampleFS 0
            ⟨"a", "a".data, some "b".data, none⟩).2.1) 1
          ⟨"zz", "Q".data, none, none⟩).1,
        (batchStrReplaceStep
          ((batchStrReplaceStep sampleFS 0
            ⟨"a", "a".data, some "b".data, none⟩).2.1) 2
          ⟨"a", "c".data, some "d".data, none⟩).1] :=
  C8_stop_on_error sampleFS ⟨"a", "a".data, some "b".data, none⟩
    ⟨"zz", "Q".data, none, none⟩ ⟨"a", "c".data, some "d".data, none⟩
    (by decide) (by decide)

theorem insertBy_perm {α : Type} (le : α → α → Bool) (x : α)
    (l : List α) : (insertBy le x l).Perm (x :: l) := by
  induction l with
  | nil => exact List.Perm.refl _
  | cons y ys ih =>
    show (if le x y = true then x :: y :: ys
      else y :: insertBy le x ys).Perm _
    split
    · exact List.Perm.refl _
    · exact (ih.cons y).trans (List.Perm.swap x y ys)

theorem jsSortBy_perm {α : Type} (le : α → α → Bool) (l : List α) :
    (jsSortBy le l).Perm l := by
  induction l with
  | nil => exact List.Perm.refl _
  | cons x xs ih =>
    show (insertBy le x (jsSortBy le xs)).Perm (x :: xs)
    exact (insertBy_perm le x (jsSortBy le xs)).trans (ih.cons x)

/-- The `failed > 0 && successful === 0` aggregate (shared by every
batch handler except `batch_write_files`) holds exactly when the
returned (sorted) results list is non-empty and every entry failed. -/
theorem isError_allFailed_iff {α : Type} (p : α → Bool) (l sorted : List α)
    (hperm : sorted.Perm l) :
    (decide (0 < (l.filter (fun r => decide (p r = false))).length ∧
        (l.filter (fun r => p r)).length = 0) = true) ↔
      (sorted ≠ [] ∧ ∀ r ∈ sorted, p r = false) := by
  rw [decide_eq_true_iff]
  have hpos : (0 < (l.filter (fun r => decide (p r = false))).length) ↔
      ∃ r ∈ l, p r = false := by
    rw [← List.countP_eq_length_filter, List.countP_pos_iff]
    simp
  have hzero : ((l.filter (fun r => p r)).length = 0) ↔
      ∀ r ∈ l, p r = false := by
    rw [← List.countP_eq_length_filter, List.countP_eq_zero]
    simp
  rw [hpos, hzero]
  constructor
  · rintro ⟨⟨r, hr, -⟩, hall⟩
    refine ⟨?_, fun x hx => hall x (hperm.mem_iff.mp hx)⟩
    intro hnil
    rw [hnil] at hperm
    have hl : l = [] := hperm.symm.eq_nil
    rw [hl] at hr
    exact absurd hr (List.not_mem_nil r)
  · rintro ⟨hne, hall⟩
    have hall' : ∀ r ∈ l, p r = false :=
      fun r hr => hall r (hperm.mem_iff.mpr hr)
    refine ⟨?_, hall'⟩
    cases hs : sorted with
    | nil => exact absurd hs hne
    | cons x xs =>
      have hx : x ∈ l := hperm.mem_iff.mp (by simp [hs])
      exact ⟨x, hx, hall' x hx⟩

/-- The `failed > 0` aggregate of `batch_write_files` holds exactly
when some returned entry failed. -/
theorem isError_anyFailed_iff {α : Type} (p : α → Bool) (l sorted : List α)
    (hperm : sorted.Perm l) :
    (decide (0 < (l.filter (fun r => decide (p r = false))).length) = true) ↔
      ∃ r ∈ sorted, p r = false := by
  rw [decide_eq_true_iff, ← List.countP_eq_length_filter, List.countP_pos_iff]
  constructor
  · rintro ⟨r, hr, hp⟩
    exact ⟨r, hperm.mem_iff.mpr hr, by simpa using hp⟩
  · rintro ⟨r, hr, hp⟩
    exact ⟨r, hperm.mem_iff.mp hr, by simpa using hp⟩

/-- Claim C4 (amended): across the embedded batch handlers the
top-level `isError` flag is set only when the results list is non-empty
and every item failed — except `batch_write_files`, which sets it
whenever any item failed.  (Contrary to the original claim,
`batch_str_replace` uses the all-failed rule like the non-mutating
batches — source line 1029 — not the any-failed rule; see the
counterexample.) -/
theorem C4_isError_policy :
    (∀ (fs : FS) (items : List ReplaceItem) (stop : Option Bool),
      (handleBatchStrReplace fs items stop).isError = true ↔
        ((handleBatchStrReplace fs items stop).results ≠ [] ∧
          ∀ r ∈ (handleBatchStrReplace fs items stop).results,
            r.success = false)) ∧
    (∀ (fs : FS) (files : List WriteFileItem),
      (handleBatchWriteFiles fs files).isError = true ↔
        ∃ r ∈ (handleBatchWriteFiles fs files).results,
          r.success = false) ∧
    (∀ (fs : FS) (paths : List String),
      (handleBatchReadFiles fs paths).isError = true ↔
        ((handleBatchReadFiles fs paths).results ≠ [] ∧
          ∀ r ∈ (handleBatchReadFiles fs paths).results,
            r.success = false)) ∧
    (∀ (fs : FS) (searches : List SearchItem) (opts : SearchOpts),
      (handleBatchSearchInFiles fs searches opts).isError = true ↔
        ((handleBatchSearchInFiles fs searches opts).results ≠ [] ∧
          ∀ r ∈ (handleBatchSearchInFiles fs searches opts).results,
            r.success = false)) := by
  refine ⟨?_, ?_, ?_, ?_⟩
  · intro fs items stop
    exact isError_allFailed_iff (fun r => r.success)
      (batchStrReplaceGo (stop.getD false) fs 0 items).1 _
      (jsSortBy_perm _ _)
  · intro fs files
    exact isError_anyFailed_iff (fun r => r.success)
      (batchWriteGo fs 0 files).1 _ (jsSortBy_perm _ _)
  · intro fs paths
    exact isError_allFailed_iff (fun r : ReadBatchResult => r.success) _ _
      (jsSortBy_perm _ _)
  · intro fs searches opts
    exact isError_allFailed_iff (fun r => r.success)
      (searches.map (searchOneFile fs opts)) _ (List.Perm.refl _)

/-- Counterexample to C4 as stated: a `batch_str_replace` batch with
one succeeding and one failing item reports `successful = 1`,
`failed = 1`, and `isError = false` — the claim demands `isError`
whenever any item of this mutating batch failed. -/
theorem C4_partial_failure_not_flagged :
    (handleBatchStrReplace sampleFS
      [⟨"a", "X".data, some "Y".data, some true⟩,
        ⟨"zz", "Q".data, none, none⟩] none).successful = 1 ∧
    (handleBatchStrReplace sampleFS
      [⟨"a", "X".data, some "Y".data, some true⟩,
        ⟨"zz", "Q".data, none, none⟩] none).failed = 1 ∧
    (handleBatchStrReplace sampleFS
      [⟨"a", "X".data, some "Y".data, some true⟩,
        ⟨"zz", "Q".data, none, none⟩] none).isError = false :=
  ⟨by decide, by decide, by decide⟩

/-- Witness for C4 at a concrete one-item failing batch. -/
theorem C4_isError_policy_witness :
    (handleBatchStrReplace sampleFS [⟨"zz", "Q".data, none, none⟩]
        none).isError = true ↔
      ((handleBatchStrReplace sampleFS [⟨"zz", "Q".data, none, none⟩]
          none).results ≠ [] ∧
        ∀ r ∈ (handleBatchStrReplace sampleFS
          [⟨"zz", "Q".data, none, none⟩] none).results,
          r.success = false) :=
  C4_isError_policy.1 sampleFS [⟨"zz", "Q".data, none, none⟩] none

theorem insertBy_key_pairwise {α : Type} (k : α → Nat) (x : α)
    (l : List α)
    (h : l.Pairwise (fun a b => Nat.ble (k a) (k b) = true)) :
    (insertBy (fun a b => Nat.ble (k a) (k b)) x l).Pairwise
      (fun a b => Nat.ble (k a) (k b) = true) := by
  induction l with
  | nil => simp [insertBy]
  | cons y ys ih =>
    rw [List.pairwise_cons] at h
    show List.Pairwise _ (if Nat.ble (k x) (k y) = true then x :: y :: ys
      else y :: insertBy (fun a b => Nat.ble (k a) (k b)) x ys)
    by_cases hxy : Nat.ble (k x) (k y) = true
    · rw [if_pos hxy, List.pairwise_cons]
      refine ⟨?_, List.pairwise_cons.mpr h⟩
      intro z hz
      rcases List.mem_cons.mp hz with hz | hz
      · rw [hz]; exact hxy
      · have h1 : k x ≤ k y := Nat.le_of_ble_eq_true hxy
        have h2 : k y ≤ k z := Nat.le_of_ble_eq_true (h.1 z hz)
        exact Nat.ble_eq_true_of_le (Nat.le_trans h1 h2)
    · rw [if_neg hxy, List.pairwise_cons]
      refine ⟨?_, ih h.2⟩
      intro z hz
      have hz' : z ∈ x :: ys :=
        (insertBy_perm (fun a b => Nat.ble (k a) (k b)) x ys).mem_iff.mp hz
      rcases List.mem_cons.mp hz' with hz' | hz'
      · rw [hz']
        have hnot : ¬ k x ≤ k y :=
          fun hle => hxy (Nat.ble_eq_true_of_le hle)
        have : k y ≤ k x := by omega
        exact Nat.ble_eq_true_of_le this
      · exact h.1 z hz'

theorem jsSortBy_key_pairwise {α : Type} (k : α → Nat) (l : List α) :
    (jsSortBy (fun a b => Nat.ble (k a) (k b)) l).Pairwise
      (fun a b => Nat.ble (k a) (k b) = true) := by
  induction l with
  | nil => simp [jsSortBy]
  | cons x xs ih =>
    show List.Pairwise _
      (insertBy (fun a b => Nat.ble (k a) (k b)) x
        (jsSortBy (fun a b => Nat.ble (k a) (k b)) xs))
    exact insertBy_key_pairwise k x _ ih

theorem batchStrReplaceGo_indices (stop : Bool) (items : List ReplaceItem) :
    ∀ (fs : FS) (i : Nat),
      ((batchStrReplaceGo stop fs i items).1.map fun r => r.index) =
        List.range' i (batchStrReplaceGo stop fs i items).1.length := by
  induction items with
  | nil => intro fs i; simp [batchStrReplaceGo]
  | cons op rest ih =>
    intro fs i
    rw [batchStrReplaceGo_cons]
    split
    · simp [batchStrReplaceStep_index, List.range']
    · simp [batchStrReplaceStep_index, ih, List.range'_succ]

theorem searchOneFile_path (fs : FS) (opts : SearchOpts)
    (item : SearchItem) :
    (searchOneFile fs opts item).path = item.path ∧
    (searchOneFile fs opts item).pattern = item.pattern := by
  rcases hc : fs.files item.path with _ | c <;> simp [searchOneFile, hc]

/-- Claim C3 (amended): batch results are ordered by original request
position.  `batch_str_replace`'s returned results carry a strictly
increasing `index` field equal to `0 .. length-1`; in general, sorting
any completion-order permutation of index-carrying results restores
`index = 0 .. n-1`; `batch_search_in_files` returns the k-th search's
outcome at position k — but its result records carry no `index` field
at all (see the counterexample), so the original claim's "index field
strictly increasing 0..N-1" cannot hold for it. -/
theorem C3_result_ordering :
    (∀ (fs : FS) (items : List ReplaceItem) (stop : Option Bool),
      ((handleBatchStrReplace fs items stop).results.map fun r => r.index) =
        List.range (handleBatchStrReplace fs items stop).results.length) ∧
    (∀ (n : Nat) (l : List BatchResult),
      (l.map fun r => r.index).Perm (List.range n) →
      ((sortByIndex l).map fun r => r.index) = List.range n) ∧
    (∀ (fs : FS) (searches : List SearchItem) (opts : SearchOpts),
      ((handleBatchSearchInFiles fs searches opts).results.map
          fun r => (r.path, r.pattern)) =
        searches.map fun s => (s.path, s.pattern)) := by
  have hsort_id : ∀ l : List BatchResult,
      (l.map fun r => r.index) =
          List.range' 0 l.length →
        sortByIndex l = l := by
    intro l hl
    apply jsSortBy_of_pairwise
    have hpw : List.Pairwise (· ≤ ·) (l.map fun r => r.index) := by
      rw [hl]
      exact (List.pairwise_lt_range' 0 l.length).imp le_of_lt
    rw [List.pairwise_map] at hpw
    exact hpw.imp fun hab => Nat.ble_eq_true_of_le hab
  refine ⟨?_, ?_, ?_⟩
  · intro fs items stop
    have hidx := batchStrReplaceGo_indices (stop.getD false) items fs 0
    have hres : (handleBatchStrReplace fs items stop).results =
        (batchStrReplaceGo (stop.getD false) fs 0 items).1 :=
      hsort_id _ hidx
    rw [hres, hidx, List.range'_eq_map_range]
    simp
  · intro n l hperm
    have hp : ((sortByIndex l).map fun r => r.index).Perm (List.range n) :=
      (((jsSortBy_perm _ l).map _)).trans hperm
    have hs : ((sortByIndex l).map fun r => r.index).Sorted (· ≤ ·) := by
      have := jsSortBy_key_pairwise (fun r : BatchResult => r.index) l
      rw [List.Sorted, List.pairwise_map]
      exact this.imp fun hab => Nat.le_of_ble_eq_true hab
    exact List.eq_of_perm_of_sorted hp hs
      ((List.pairwise_lt_range n).imp le_of_lt)
  · intro fs searches opts
    show ((searches.map (searchOneFile fs opts)).map
      fun r => (r.path, r.pattern)) = _
    rw [List.map_map]
    apply List.map_congr_left
    intro item hmem
    have := searchOneFile_path fs opts item
    simp [this.1, this.2]

/-- Counterexample to C3 as stated: the result record of a
`batch_search_in_files` item is serialized with exactly the keys
`path, pattern, success, totalLines, matchCount, matches` (success) or
`path, pattern, success, error` (failure) — there is no `index` field
whose values could be "strictly increasing 0..N-1". -/
theorem C3_no_index_field :
    (handleBatchSearchInFiles sampleFS [⟨"a", "X".data⟩]
      ⟨none, none, none, none⟩).results.length = 1 ∧
    ∀ r ∈ (handleBatchSearchInFiles sampleFS [⟨"a", "X".data⟩]
      ⟨none, none, none, none⟩).results,
      "index" ∉ fileSearchResultKeys r :=
  ⟨by decide, by decide⟩

/-- Witness for C3: a two-element completion-order permutation is
restored to index order 0, 1 by the sort, the one-item
`batch_str_replace` results carry index range 0..0, and a one-item
batch search returns that item's path and pattern at position 0. -/
theorem C3_result_ordering_witness :
    ((handleBatchStrReplace sampleFS [⟨"zz", "Q".data, none, none⟩]
        none).results.map fun r => r.index) =
      List.range (handleBatchStrReplace sampleFS
        [⟨"zz", "Q".data, none, none⟩] none).results.length ∧
    ((sortByIndex [⟨1, false, none, none⟩, ⟨0, true, none, none⟩]).map
        fun r => r.index) = List.range 2 ∧
    ((handleBatchSearchInFiles sampleFS [⟨"a", "X".data⟩]
        ⟨none, none, none, none⟩).results.map
        fun r => (r.path, r.pattern)) =
      ([⟨"a", "X".data⟩] : List SearchItem).map
        fun s => (s.path, s.pattern) :=
  ⟨C3_result_ordering.1 sampleFS [⟨"zz", "Q".data, none, none⟩] none,
    C3_result_ordering.2.1 2 [⟨1, false, none, none⟩, ⟨0, true, none, none⟩]
      (by decide),
    C3_result_ordering.2.2 sampleFS [⟨"a", "X".data⟩]
      ⟨none, none, none, none⟩⟩

theorem filterMap_enumFrom_none (pred : List Char → Bool)
    (lines : List (List Char)) :
    ∀ (i : Nat), (∀ x ∈ lines, ¬ pred x = true) →
      (List.enumFrom i lines).filterMap
        (fun p => if pred p.2 then some (p.1 + 1, p.2) else none) = [] := by
  induction lines with
  | nil => intro i _; rfl
  | cons l rest ih =>
    intro i hall
    have hl : ¬ pred l = true := hall l (by simp)
    simp only [List.enumFrom_cons, List.filterMap_cons, hl]
    simp only [Bool.false_eq_true, if_false]
    exact ih (i + 1) (fun x hx => hall x (by simp [hx]))

theorem scanGo_eq_filterMap (pred : List Char → Bool) (maxM : Nat)
    (lines : List (List Char)) :
    ∀ (i found : Nat),
      found + (lines.filter pred).length ≤ maxM →
      (scanGo pred maxM lines i found).1 =
        (List.enumFrom i lines).filterMap
          (fun p => if pred p.2 then some (p.1 + 1, p.2) else none) := by
  induction lines with
  | nil => intro i found h; simp [scanGo]
  | cons l rest ih =>
    intro i found h
    by_cases hp : pred l
    · have hlen : ((l :: rest).filter pred).length =
          (rest.filter pred).length + 1 := by
        simp [List.filter_cons, hp]
      have hnf : ¬ maxM ≤ found := by omega
      have hrec := ih (i + 1) (found + 1) (by omega)
      simp [scanGo, hnf, hp, hrec, List.enumFrom_cons, List.filterMap_cons]
    · have hlen : ((l :: rest).filter pred).length =
          (rest.filter pred).length := by
        simp [List.filter_cons, hp]
      by_cases hf : maxM ≤ found
      · have hflen : ((l :: rest).filter pred).length = 0 := by omega
        have hnil : (l :: rest).filter pred = [] :=
          List.length_eq_zero.mp hflen
        have hall := List.filter_eq_nil_iff.mp hnil
        simp only [scanGo, if_pos hf]
        exact (filterMap_enumFrom_none pred (l :: rest) i hall).symm
      · have hrec := ih (i + 1) found (by omega)
        simp [scanGo, hf, hp, hrec, List.enumFrom_cons,
          List.filterMap_cons]

theorem filterMap_enumFrom_cons_pos (pred : List Char → Bool)
    (i : Nat) (l : List Char) (rest : List (List Char))
    (hp : pred l = true) :
    (List.enumFrom i (l :: rest)).filterMap
      (fun p => if pred p.2 then some (p.1 + 1, p.2) else none) =
      (i + 1, l) :: (List.enumFrom (i + 1) rest).filterMap
        (fun p => if pred p.2 then some (p.1 + 1, p.2) else none) := by
  simp [List.enumFrom_cons, List.filterMap_cons, hp]

theorem filterMap_enumFrom_cons_neg (pred : List Char → Bool)
    (i : Nat) (l : List Char) (rest : List (List Char))
    (hp : pred l = false) :
    (List.enumFrom i (l :: rest)).filterMap
      (fun p => if pred p.2 then some (p.1 + 1, p.2) else none) =
      (List.enumFrom (i + 1) rest).filterMap
        (fun p => if pred p.2 then some (p.1 + 1, p.2) else none) := by
  simp [List.enumFrom_cons, List.filterMap_cons, hp]

theorem filterMap_enumFrom_fst_lb (pred : List Char → Bool)
    (lines : List (List Char)) :
    ∀ (i x : Nat),
      x ∈ (((List.enumFrom i lines).filterMap
        (fun p => if pred p.2 then some (p.1 + 1, p.2) else none)).map
          Prod.fst) → i + 1 ≤ x := by
  induction lines with
  | nil => intro i x hx; simp at hx
  | cons l rest ih =>
    intro i x hx
    cases hp : pred l with
    | true =>
      rw [filterMap_enumFrom_cons_pos pred i l rest hp, List.map_cons,
        List.mem_cons] at hx
      rcases hx with hx | hx
      · omega
      · have := ih (i + 1) x hx
        omega
    | false =>
      rw [filterMap_enumFrom_cons_neg pred i l rest hp] at hx
      have := ih (i + 1) x hx
      omega

theorem filterMap_enumFrom_fst_pairwise (pred : List Char → Bool)
    (lines : List (List Char)) :
    ∀ (i : Nat),
      List.Pairwise (· < ·)
        (((List.enumFrom i lines).filterMap
          (fun p => if pred p.2 then some (p.1 + 1, p.2) else none)).map
            Prod.fst) := by
  induction lines with
  | nil => intro i; simp
  | cons l rest ih =>
    intro i
    cases hp : pred l with
    | true =>
      rw [filterMap_enumFrom_cons_pos pred i l rest hp, List.map_cons,
        List.pairwise_cons]
      refine ⟨?_, ih (i + 1)⟩
      intro x hx
      have := filterMap_enumFrom_fst_lb pred rest (i + 1) x hx
      omega
    | false =>
      rw [filterMap_enumFrom_cons_neg pred i l rest hp]
      exact ih (i + 1)

theorem filterMap_enumFrom_fst_mem (pred : List Char → Bool)
    (lines : List (List Char)) :
    ∀ (i k : Nat) (hk : k < lines.length),
      pred (lines.get ⟨k, hk⟩) = true →
      (i + k + 1) ∈ (((List.enumFrom i lines).filterMap
        (fun p => if pred p.2 then some (p.1 + 1, p.2) else none)).map
          Prod.fst) := by
  induction lines with
  | nil => intro i k hk; simp at hk
  | cons l rest ih =>
    intro i k hk hpk
    cases k with
    | zero =>
      have hp : pred l = true := hpk
      rw [filterMap_enumFrom_cons_pos pred i l rest hp, List.map_cons]
      simp
    | succ k =>
      have hmem := ih (i + 1) k (by simpa using hk) hpk
      have harith : i + 1 + k + 1 = i + (k + 1) + 1 := by omega
      cases hp : pred l with
      | true =>
        rw [filterMap_enumFrom_cons_pos pred i l rest hp, List.map_cons,
          List.mem_cons]
        right
        rw [← harith]
        exact hmem
      | false =>
        rw [filterMap_enumFrom_cons_neg pred i l rest hp]
        rw [← harith]
        exact hmem

theorem litPred_iff (pattern : List Char) (cs : Bool) (line : List Char) :
    litPred pattern cs line = true ↔
      (if cs then pattern <:+: line
        else lowerL pattern <:+: lowerL line) := by
  cases cs <;> simp [litPred, containsSub_iff]

/-- Claim C7: for a literal (non-regex) search whose number of matching
lines does not exceed `maxMatches`, the returned matches list contains
exactly one entry, at line number k+1, for every 0-based line k that
contains the pattern as a substring (case rules applied), and the line
numbers of the matches are strictly ascending. -/
theorem C7_literal_search_exact (fs : FS) (args : SearchArgs)
    (content : List Char) (hc : fs.files args.path = some content)
    (hcap : ((jsSplit ['\n'] content).filter
        (litPred args.pattern (args.caseSensitive.getD true))).length ≤
      args.maxMatches.getD 100) :
    ∃ ms, (handleSearchInFile fs args).matchList = some ms ∧
      List.Pairwise (· < ·) (ms.map Prod.fst) ∧
      ∀ (k : Nat) (hk : k < (jsSplit ['\n'] content).length),
        (if args.caseSensitive.getD true then
            args.pattern <:+: (jsSplit ['\n'] content).get ⟨k, hk⟩
          else lowerL args.pattern <:+:
            lowerL ((jsSplit ['\n'] content).get ⟨k, hk⟩)) →
        (ms.map Prod.fst).count (k + 1) = 1 := by
  refine ⟨(scanGo (litPred args.pattern (args.caseSensitive.getD true))
      (args.maxMatches.getD 100) (jsSplit ['\n'] content) 0 0).1,
    by simp [handleSearchInFile, hc], ?_, ?_⟩
  · rw [scanGo_eq_filterMap _ _ _ 0 0 (by simpa using hcap)]
    exact filterMap_enumFrom_fst_pairwise _ _ 0
  · intro k hk hinf
    rw [scanGo_eq_filterMap _ _ _ 0 0 (by simpa using hcap)]
    have hpred : litPred args.pattern (args.caseSensitive.getD true)
        ((jsSplit ['\n'] content).get ⟨k, hk⟩) = true :=
      (litPred_iff _ _ _).mpr hinf
    have hmem := filterMap_enumFrom_fst_mem
      (litPred args.pattern (args.caseSensitive.getD true))
      (jsSplit ['\n'] content) 0 k hk hpred
    rw [Nat.zero_add] at hmem
    have hnd : (((List.enumFrom 0 (jsSplit ['\n'] content)).filterMap
        (fun p => if litPred args.pattern (args.caseSensitive.getD true)
          p.2 then some (p.1 + 1, p.2) else none)).map Prod.fst).Nodup :=
      (filterMap_enumFrom_fst_pairwise _ _ 0).nodup
    exact List.count_eq_one_of_mem hnd hmem

/-- Witness for C7 on `sampleFS`: the one-line file "aXbXc" searched
for the literal "X". -/
theorem C7_literal_search_exact_witness :
    ∃ ms, (handleSearchInFile sampleFS
        ⟨"a", "X".data, none, none⟩).matchList = some ms ∧
      List.Pairwise (· < ·) (ms.map Prod.fst) ∧
      ∀ (k : Nat) (hk : k < (jsSplit ['\n'] "aXbXc".data).length),
        (if (none : Option Bool).getD true then
            "X".data <:+: (jsSplit ['\n'] "aXbXc".data).get ⟨k, hk⟩
          else lowerL "X".data <:+:
            lowerL ((jsSplit ['\n'] "aXbXc".data).get ⟨k, hk⟩)) →
        (ms.map Prod.fst).count (k + 1) = 1 :=
  C7_literal_search_exact sampleFS ⟨"a", "X".data, none, none⟩
    "aXbXc".data (by decide) (by decide)
